import Mathlib

/-!
# Verification of libicsneo components

Shallow embedding of:
* `PlasionDiskReadDriver::readLogicalDiskAligned` (src/disk/plasiondiskreaddriver.cpp),
* the `HardwareCANPacket` bit-field layout (src/include/icsneo/communication/packet/canpacket.h),
* the tty-number/handle mapping of `CDCACM::Find` and `CDCACM::HandleToTTY`
  (src/platform/posix/linux/cdcacmlinux.cpp).

Machine integers are modelled as `Nat` with explicit `% 2 ^ w` where the source
truncates; fallible operations return `Option`.
-/

namespace Icsneo

/-- Parameters of the disk read driver that live in headers outside the sampled
source. Modelled from the spec: `getBlockSizeBounds()` supplies
(`minBlock`, `maxBlock`) — the spec's example instance uses minimum granularity
512 and maximum block 8192 — `SectorSize` is the fixed sector size, and
`opcode` is the numeric value of
`MultiChannelCommunication::CommandType::HostPC_from_SDCC1`. All theorems
below quantify over these values, so nothing depends on the particular
constants. -/
structure DiskParams where
  minBlock : Nat
  maxBlock : Nat
  sectorSize : Nat
  opcode : Nat

/-- The per-transaction state captured by the response callback closure in
`readLogicalDiskAligned`: the accumulated byte count `copied` (a `uint32_t`),
the `error` flag, and the contents of the destination buffer `into`. -/
structure TxState where
  copied : Nat
  error : Bool
  into : List Nat
deriving Repr, DecidableEq

/-- The communication object, as far as `readLogicalDiskAligned` touches it:
the registered message-callback ids (`addMessageCallback` /
`removeMessageCallback`) and the list of raw frames written (`rawWrite`). -/
structure Com where
  subs : List Nat
  nextId : Nat
  sent : List (List Nat)
deriving Repr, DecidableEq

/-- Model of `Communication::addMessageCallback`: registers a callback and returns its
fresh handle. -/
def addMessageCallback (c : Com) : Com × Nat :=
  ({ c with subs := c.subs ++ [c.nextId], nextId := c.nextId + 1 }, c.nextId)

/-- Model of `Communication::removeMessageCallback`: removes the callback with the
given handle. -/
def removeMessageCallback (c : Com) (id : Nat) : Com :=
  { c with subs := c.subs.erase id }

/-- Model of `Communication::rawWrite`: appends one outbound frame. -/
def rawWrite (c : Com) (f : List Nat) : Com :=
  { c with sent := c.sent ++ [f] }

/-- Model of `memcpy(into + off, data, data.size())` on a buffer modelled as a list:
overwrite the range `[off, off + data.length)`. -/
def memcpyAt (buf : List Nat) (off : Nat) (data : List Nat) : List Nat :=
  buf.take off ++ data ++ buf.drop (off + data.length)

/-- One invocation of the response callback in `readLogicalDiskAligned`.
`msg` is `none` when the `dynamic_pointer_cast<NeoReadMemorySDMessage>` fails,
and `some data` with the message payload otherwise.  Mirrors lines 32–49 of
src/disk/plasiondiskreaddriver.cpp: on a failed cast or an overflowing
payload, set `error`; otherwise `memcpy` at offset `copied` and advance
`copied` (a `uint32_t`, hence the `% 2 ^ 32`). -/
def callbackStep (amount : Nat) (s : TxState) (msg : Option (List Nat)) : TxState :=
  match msg with
  | none => { s with error := true }
  | some data =>
    if amount < s.copied + data.length then
      { s with error := true }
    else
      { s with
        into := memcpyAt s.into s.copied data
        copied := (s.copied + data.length) % 2 ^ 32 }

/-- The predicate of the `cv.wait_for` call: `error || copied == amount`. -/
def txDone (amount : Nat) (s : TxState) : Bool :=
  s.error || s.copied == amount

/-- The wait loop of `readLogicalDiskAligned`: the callback processes the
arriving messages in order until the condition-variable predicate holds (the
waiter then wakes, returns `true`, and the remaining messages are irrelevant
to the call); if the predicate never holds after all messages that arrive
within the timeout window, the wait times out (`false`). -/
def waitForMessages (amount : Nat) : TxState → List (Option (List Nat)) → TxState × Bool
  | s, [] => (s, txDone amount s)
  | s, m :: rest =>
    if txDone amount s then (s, true)
    else waitForMessages amount (callbackStep amount s m) rest

/-- The outbound command frame built by the `com.rawWrite` call: one opcode
byte, the 4-byte sector in little-endian order, the low 2 bytes of the
requested length in little-endian order.  Each entry is the value of the
corresponding `uint8_t(...)` cast. -/
def commandFrame (opcode sector amount : Nat) : List Nat :=
  [opcode % 2 ^ 8,
   sector % 2 ^ 8, sector / 2 ^ 8 % 2 ^ 8, sector / 2 ^ 16 % 2 ^ 8, sector / 2 ^ 24 % 2 ^ 8,
   amount % 2 ^ 8, amount / 2 ^ 8 % 2 ^ 8]

/-- Result of one call to `readLogicalDiskAligned`: the returned
`optional<uint64_t>`, the communication object after the call, and the final
transaction state (`none` when validation failed before a transaction was
set up). -/
structure ReadOutcome where
  result : Option Nat
  com : Com
  finalTx : Option TxState
deriving Repr, DecidableEq

/-- Model of `PlasionDiskReadDriver::readLogicalDiskAligned`, shallowly embedded.
`pos` and `amount` are the `uint64_t` arguments, `into` the destination
buffer contents, and `msgs` the sequence of messages delivered to the
temporary callback during the wait window (in delivery order).  Mirrors
src/disk/plasiondiskreaddriver.cpp lines 9–67 exactly: the three validation
checks, the 64-bit sector computation with the 32-bit truncation check, the
subscription, the single `rawWrite`, the bounded wait, the unconditional
`removeMessageCallback`, and the return of `nullopt` on timeout and `amount`
otherwise. -/
def readLogicalDiskAligned (p : DiskParams) (com : Com) (pos amount : Nat)
    (into : List Nat) (msgs : List (Option (List Nat))) : ReadOutcome :=
  if amount > p.maxBlock then ⟨none, com, none⟩
  else if amount % p.minBlock ≠ 0 then ⟨none, com, none⟩
  else if pos % p.minBlock ≠ 0 then ⟨none, com, none⟩
  else
    let largeSector := pos / p.sectorSize
    let sector := largeSector % 2 ^ 32
    if largeSector ≠ sector then ⟨none, com, none⟩
    else
      let r1 := addMessageCallback com
      let com2 := rawWrite r1.1 (commandFrame p.opcode sector amount)
      let w := waitForMessages amount ⟨0, false, into⟩ msgs
      let com3 := removeMessageCallback com2 r1.2
      ⟨if w.2 then some amount else none, com3, some w.1⟩

/-- Little-endian byte decomposition: the low `w` bytes of `n`, least
significant first.  Spec-side description of the wire layout, to be compared
with `commandFrame` (which is transcribed from the source). -/
def leBytes : Nat → Nat → List Nat
  | 0, _ => []
  | w + 1, n => n % 2 ^ 8 :: leBytes w (n / 2 ^ 8)

/-! ## HardwareCANPacket bit-field layout -/

/-- Bit width of `icscm_bitfield` (`uint16_t`), the type of every field of the
`HardwareCANPacket` sub-blocks, hence the width of each bit-field block. -/
def icscmBitfieldWidth : Nat := 16

/-- The `dlc` block of `HardwareCANPacket`
(src/include/icsneo/communication/packet/canpacket.h lines 35–44): the fields
in declaration order with their declared bit widths. -/
def dlcBlockFields : List (String × Nat) :=
  [("DLC", 4), ("RB0", 1), ("IVRIF", 1), ("HVEnable", 1),
   ("ExtendedNetworkIndexBit", 1), ("RB1", 1), ("RTR", 1), ("EID2", 6)]

/-- The fields of the `dlc` block strictly between `DLC` and `EID2`. -/
def dlcMidFields : List (String × Nat) :=
  (dlcBlockFields.drop 1).dropLast

/-! ## CDCACM tty-number / handle mapping (Linux) -/

/-- Constant `HANDLE_OFFSET` from src/platform/posix/linux/cdcacmlinux.cpp: added to
the tty number so that handle 0 stays reserved for "undefined". -/
def HANDLE_OFFSET : Nat := 10

/-- Decimal printing of a nonnegative integer, digit characters in order, as
`std::stringstream`'s `operator<<` produces for a nonnegative `int`. -/
def toDecimal (n : Nat) : List Char :=
  if h : n < 10 then [Char.ofNat (48 + n)]
  else toDecimal (n / 10) ++ [Char.ofNat (48 + n % 10)]
  decreasing_by exact Nat.div_lt_self (Nat.lt_of_lt_of_le (by norm_num) (Nat.le_of_not_lt h)) (by norm_num)

/-- Model of `std::stoul(s)` on a string that starts with a digit: parse the leading
run of decimal digits. -/
def stoulDigits (cs : List Char) : Nat :=
  (cs.takeWhile Char.isDigit).foldl (fun a c => a * 10 + (c.toNat - 48)) 0

/-- The handle computation inside `CDCACM::Find`
(src/platform/posix/linux/cdcacmlinux.cpp lines 179–194): scan the tty name
to the first digit, `stoul` the rest, add `HANDLE_OFFSET`; the device is
tossed (`none`) when there is no digit to parse (`stoul` throws). The handle
is kept as its nonnegative numeric value. -/
def findHandle (tty : List Char) : Option Nat :=
  let rest := tty.dropWhile (fun c => !c.isDigit)
  if rest.isEmpty then none
  else some (stoulDigits rest + HANDLE_OFFSET)

/-- Model of `CDCACM::HandleToTTY` (src/platform/posix/linux/cdcacmlinux.cpp lines
208–212): `"/dev/ttyACM" << (int)(handle - HANDLE_OFFSET)`, for the handles
produced by `Find` (which are ≥ `HANDLE_OFFSET`, so the printed `int` is
nonnegative). -/
def HandleToTTY (handle : Nat) : List Char :=
  ['/', 'd', 'e', 'v', '/', 't', 't', 'y', 'A', 'C', 'M'] ++ toDecimal (handle - HANDLE_OFFSET)

/-- The name of the tty device node `ttyACM<n>` as a character list. -/
def ttyACMName (n : Nat) : List Char :=
  ['t', 't', 'y', 'A', 'C', 'M'] ++ toDecimal n

/-! ## Helper lemmas -/

/-- Evaluation of `readLogicalDiskAligned` on a request that passes all four
validation checks. -/
theorem readAligned_valid_eval (p : DiskParams) (com : Com) (pos amount : Nat)
    (into : List Nat) (msgs : List (Option (List Nat)))
    (h1 : amount ≤ p.maxBlock) (h2 : amount % p.minBlock = 0)
    (h3 : pos % p.minBlock = 0) (h4 : pos / p.sectorSize < 2 ^ 32) :
    readLogicalDiskAligned p com pos amount into msgs =
      ⟨if (waitForMessages amount ⟨0, false, into⟩ msgs).2 then some amount else none,
       ⟨(com.subs ++ [com.nextId]).erase com.nextId, com.nextId + 1,
        com.sent ++ [commandFrame p.opcode (pos / p.sectorSize) amount]⟩,
       some (waitForMessages amount ⟨0, false, into⟩ msgs).1⟩ := by
  have h4' : pos / p.sectorSize % 4294967296 = pos / p.sectorSize :=
    Nat.mod_eq_of_lt (by omega)
  simp [readLogicalDiskAligned, addMessageCallback, rawWrite, removeMessageCallback,
    not_lt.mpr h1, h2, h3, h4']

/-- The source's seven `uint8_t` expressions are exactly the little-endian
byte decompositions of the opcode, sector and length fields. -/
theorem commandFrame_eq_leBytes (o s a : Nat) :
    commandFrame o s a = o % 2 ^ 8 :: (leBytes 4 s ++ leBytes 2 a) := by
  simp [commandFrame, leBytes, Nat.div_div_eq_div_mul]

/-- Once the wake predicate holds, the wait returns at once with the current
state, regardless of any further messages. -/
theorem waitForMessages_done (amount : Nat) (s : TxState)
    (hs : txDone amount s = true) (msgs : List (Option (List Nat))) :
    waitForMessages amount s msgs = (s, true) := by
  cases msgs with
  | nil => simp [waitForMessages, hs]
  | cons m rest => simp [waitForMessages, hs]

/-! ## Claim theorems -/

/-- C2: a request whose length exceeds the maximum block size, or whose
length or offset is not a multiple of the minimum block granularity, fails
immediately: the result is failure, the communication object is returned
untouched (no outbound frame, no subscription), and no transaction state is
ever created. -/
theorem readAligned_invalid_fails_immediately (p : DiskParams) (com : Com)
    (pos amount : Nat) (into : List Nat) (msgs : List (Option (List Nat)))
    (h : p.maxBlock < amount ∨ amount % p.minBlock ≠ 0 ∨ pos % p.minBlock ≠ 0) :
    readLogicalDiskAligned p com pos amount into msgs = ⟨none, com, none⟩ := by
  unfold readLogicalDiskAligned
  rcases h with h | h | h <;> simp [h]

theorem readAligned_invalid_fails_immediately_witness :
    readLogicalDiskAligned ⟨512, 8192, 512, 7⟩ ⟨[], 0, []⟩ 1 512 [] []
      = ⟨none, ⟨[], 0, []⟩, none⟩ :=
  readAligned_invalid_fails_immediately _ _ _ _ _ _ (Or.inr (Or.inr (by decide)))

/-- C3: every validated request sends exactly one outbound command frame,
laid out as one opcode byte, the 4-byte sector index in little-endian order,
then the 2-byte requested length in little-endian order. -/
theorem readAligned_frame_layout (p : DiskParams) (com : Com) (pos amount : Nat)
    (into : List Nat) (msgs : List (Option (List Nat)))
    (h1 : amount ≤ p.maxBlock) (h2 : amount % p.minBlock = 0)
    (h3 : pos % p.minBlock = 0) (h4 : pos / p.sectorSize < 2 ^ 32) :
    (readLogicalDiskAligned p com pos amount into msgs).com.sent
      = com.sent ++ [p.opcode % 2 ^ 8 :: (leBytes 4 (pos / p.sectorSize) ++ leBytes 2 amount)] := by
  rw [readAligned_valid_eval p com pos amount into msgs h1 h2 h3 h4]
  simp [commandFrame_eq_leBytes]

theorem readAligned_frame_layout_witness :
    (readLogicalDiskAligned ⟨512, 8192, 512, 7⟩ ⟨[], 0, []⟩ 0 1024 [] []).com.sent
        = [] ++ [7 % 2 ^ 8 :: (leBytes 4 (0 / 512) ++ leBytes 2 1024)]
    ∧ [] ++ [7 % 2 ^ 8 :: (leBytes 4 (0 / 512) ++ leBytes 2 1024)]
        = [[7, 0, 0, 0, 0, 0x00, 0x04]] :=
  ⟨readAligned_frame_layout _ _ _ _ _ _ (by decide) (by decide) (by decide) (by decide),
   by decide⟩

/-- C6: the sector index is the exact integer quotient `pos / sectorSize`; if
that quotient does not fit 32 bits the call fails with nothing sent, and
otherwise the exact quotient is what goes into the frame's sector field. -/
theorem readAligned_sector_translation (p : DiskParams) (com : Com) (pos amount : Nat)
    (into : List Nat) (msgs : List (Option (List Nat)))
    (h1 : amount ≤ p.maxBlock) (h2 : amount % p.minBlock = 0)
    (h3 : pos % p.minBlock = 0) :
    (2 ^ 32 ≤ pos / p.sectorSize →
        readLogicalDiskAligned p com pos amount into msgs = ⟨none, com, none⟩)
    ∧ (pos / p.sectorSize < 2 ^ 32 →
        (readLogicalDiskAligned p com pos amount into msgs).com.sent
          = com.sent ++ [commandFrame p.opcode (pos / p.sectorSize) amount]) := by
  constructor
  · intro hbig
    have hne : pos / p.sectorSize ≠ pos / p.sectorSize % 4294967296 := by
      have := Nat.mod_lt (pos / p.sectorSize) (show 0 < 4294967296 by norm_num)
      omega
    simp [readLogicalDiskAligned, not_lt.mpr h1, h2, h3, hne]
  · intro h4
    rw [readAligned_valid_eval p com pos amount into msgs h1 h2 h3 h4]

theorem readAligned_sector_translation_witness :
    (2 ^ 32 ≤ (2 ^ 50 : Nat) / 512 →
        readLogicalDiskAligned ⟨512, 8192, 512, 7⟩ ⟨[], 0, []⟩ (2 ^ 50) 512 [] []
          = ⟨none, ⟨[], 0, []⟩, none⟩)
    ∧ ((2 ^ 50 : Nat) / 512 < 2 ^ 32 →
        (readLogicalDiskAligned ⟨512, 8192, 512, 7⟩ ⟨[], 0, []⟩ (2 ^ 50) 512 [] []).com.sent
          = [] ++ [commandFrame 7 ((2 ^ 50 : Nat) / 512) 512]) :=
  readAligned_sector_translation ⟨512, 8192, 512, 7⟩ ⟨[], 0, []⟩ (2 ^ 50) 512 [] []
    (by decide) (by decide) (by decide)

/-- C7: on every exit path following a successful validation, the temporary
message callback is removed before the call returns, so the registry's
subscription set after the call equals its set before the call. -/
theorem readAligned_unsubscribes (p : DiskParams) (com : Com) (pos amount : Nat)
    (into : List Nat) (msgs : List (Option (List Nat)))
    (h1 : amount ≤ p.maxBlock) (h2 : amount % p.minBlock = 0)
    (h3 : pos % p.minBlock = 0) (h4 : pos / p.sectorSize < 2 ^ 32)
    (hfresh : com.nextId ∉ com.subs) :
    (readLogicalDiskAligned p com pos amount into msgs).com.subs = com.subs := by
  rw [readAligned_valid_eval p com pos amount into msgs h1 h2 h3 h4]
  simp [List.erase_append_right _ hfresh]

theorem readAligned_unsubscribes_witness :
    (readLogicalDiskAligned ⟨512, 8192, 512, 7⟩ ⟨[3], 5, []⟩ 0 512 [] []).com.subs = [3] :=
  readAligned_unsubscribes _ _ _ _ _ _ (by decide) (by decide) (by decide) (by decide)
    (by decide)

/-- C1: the claim "the call returns the requested byte count if and only if
the transaction ends Complete; Errored returns failure" fails on the code: at
minimum granularity 512, maximum block 8192, sector size 512, a request for
512 bytes whose only response fails to decode ends with the transaction
Errored and 0 bytes copied, yet the wait predicate wakes the waiter, the
timeout branch is not taken, and the call returns the full count 512 — the
`error` flag is never consulted on the return path. -/
theorem readAligned_errored_returns_full_count :
    (readLogicalDiskAligned ⟨512, 8192, 512, 7⟩ ⟨[], 0, []⟩ 0 512
        (List.replicate 512 0) [none]).result = some 512
    ∧ ((readLogicalDiskAligned ⟨512, 8192, 512, 7⟩ ⟨[], 0, []⟩ 0 512
        (List.replicate 512 0) [none]).finalTx.map TxState.error) = some true
    ∧ ((readLogicalDiskAligned ⟨512, 8192, 512, 7⟩ ⟨[], 0, []⟩ 0 512
        (List.replicate 512 0) [none]).finalTx.map TxState.copied) = some 0 := by
  decide

/-- C5: a matching response that fails to decode, or whose payload would push
the accumulated count past the requested amount, sets the error flag without
copying any byte into the destination; the wake predicate then holds, so the
waiter is woken immediately and the wait returns with the errored state
untouched by any copy. -/
theorem callbackStep_error_no_copy (amount : Nat) (s : TxState) (msg : Option (List Nat))
    (h : msg = none ∨ ∃ d, msg = some d ∧ amount < s.copied + d.length) :
    callbackStep amount s msg = { s with error := true }
    ∧ txDone amount { s with error := true } = true
    ∧ (∀ rest, txDone amount s = false →
        waitForMessages amount s (msg :: rest) = ({ s with error := true }, true)) := by
  have hstep : callbackStep amount s msg = { s with error := true } := by
    rcases h with rfl | ⟨d, rfl, hd⟩
    · rfl
    · simp [callbackStep, hd]
  refine ⟨hstep, by simp [txDone], ?_⟩
  intro rest hnd
  rw [waitForMessages, if_neg (by simp [hnd]), hstep]
  exact waitForMessages_done _ _ (by simp [txDone]) _

theorem callbackStep_error_no_copy_witness :
    callbackStep 4 ⟨0, false, [0, 0, 0, 0]⟩ (some [1, 2, 3, 4, 5])
        = { TxState.mk 0 false [0, 0, 0, 0] with error := true }
    ∧ txDone 4 { TxState.mk 0 false [0, 0, 0, 0] with error := true } = true
    ∧ (∀ rest, txDone 4 (TxState.mk 0 false [0, 0, 0, 0]) = false →
        waitForMessages 4 ⟨0, false, [0, 0, 0, 0]⟩ (some [1, 2, 3, 4, 5] :: rest)
          = ({ TxState.mk 0 false [0, 0, 0, 0] with error := true }, true)) :=
  callbackStep_error_no_copy 4 ⟨0, false, [0, 0, 0, 0]⟩ (some [1, 2, 3, 4, 5])
    (Or.inr ⟨[1, 2, 3, 4, 5], rfl, by norm_num⟩)

/-- C8 (counterexample): the dlc block does not have exactly 5 bits between
`DLC` and `EID2` — the declared status/reserved/RTR bits between them total
6 bits, so the claim's count of 5 is false (and 4 + 5 + 6 = 15 would not fill
the 16-bit block). -/
theorem dlcBlock_claim_false :
    ¬ ((dlcMidFields.map Prod.snd).sum = 5
        ∧ 4 + (dlcMidFields.map Prod.snd).sum + 6 = icscmBitfieldWidth) := by
  decide

/-- C8 (amended): the dlc block consists of the 4-bit `DLC` field, followed by
exactly 6 one-bit status/reserved fields (`RB0`, `IVRIF`, `HVEnable`,
`ExtendedNetworkIndexBit`, `RB1`, `RTR`), followed by the 6-bit `EID2` field,
filling the 16-bit block. -/
theorem dlcBlock_layout :
    dlcBlockFields = ("DLC", 4) :: (dlcMidFields ++ [("EID2", 6)])
    ∧ dlcMidFields.length = 6
    ∧ (∀ f ∈ dlcMidFields, f.2 = 1)
    ∧ 4 + (dlcMidFields.map Prod.snd).sum + 6 = icscmBitfieldWidth := by
  decide

/-- Copying `c` into `done ++ todo` at offset `done.length` overwrites the
start of `todo`. -/
theorem memcpyAt_append (done todo c : List Nat) :
    memcpyAt (done ++ todo) done.length c = done ++ c ++ todo.drop c.length := by
  unfold memcpyAt
  rw [List.take_left, List.drop_append]

/-- In-order chunks whose sizes exactly exhaust the remaining request drive
the transaction to completion, writing the chunks one after another. -/
theorem waitFor_inorder (amount : Nat) (h32 : amount < 2 ^ 32)
    (chunks : List (List Nat)) :
    ∀ done todo : List Nat,
      done.length + todo.length = amount →
      (chunks.map List.length).sum = todo.length →
      waitForMessages amount ⟨done.length, false, done ++ todo⟩ (chunks.map some)
        = (⟨amount, false, done ++ chunks.flatten⟩, true) := by
  induction chunks with
  | nil =>
    intro done todo hlen hsum
    have htodo : todo = [] := List.length_eq_zero.mp (by simpa using hsum.symm)
    subst htodo
    have hd : done.length = amount := by simpa using hlen
    simp [waitForMessages, txDone, hd]
  | cons c rest ih =>
    intro done todo hlen hsum
    rcases Nat.eq_zero_or_pos todo.length with h0 | hpos
    · have htodo : todo = [] := List.length_eq_zero.mp h0
      subst htodo
      have hd : done.length = amount := by simpa using hlen
      have hsum0 : ((c :: rest).map List.length).sum = 0 := by simpa using hsum
      have hflat : (c :: rest).flatten = [] := by
        apply List.length_eq_zero.mp
        rw [List.length_flatten, hsum0]
      rw [waitForMessages_done _ _ (by simp [txDone, hd]) _]
      simp [hd, hflat]
    · have hclen : c.length + (rest.map List.length).sum = todo.length := by simpa using hsum
      have hfit : done.length + c.length ≤ amount := by omega
      rw [List.map_cons, waitForMessages, if_neg (by simp [txDone]; omega)]
      have h32' : amount < 4294967296 := by norm_num at h32; exact h32
      have hstep : callbackStep amount ⟨done.length, false, done ++ todo⟩ (some c)
          = ⟨(done ++ c).length, false, (done ++ c) ++ todo.drop c.length⟩ := by
        simp only [callbackStep]
        rw [if_neg (by omega)]
        simp [TxState.mk.injEq, memcpyAt_append, List.length_append,
          List.append_assoc]
        omega
      rw [hstep, ih (done ++ c) (todo.drop c.length)
        (by simp [List.length_append, List.length_drop]; omega)
        (by simp [List.length_drop]; omega)]
      simp [List.flatten_cons, List.append_assoc]

/-- C4: for a validated request answered by in-order chunks whose sizes sum
to the requested amount, every chunk is copied at the then-current
accumulated offset, the transaction ends Complete with the accumulated count
equal to the requested amount, the destination equals the concatenation of
the chunk payloads, the call returns the requested count — and the wake
condition of a non-errored transaction holds exactly when the accumulated
count equals the requested amount. -/
theorem readAligned_inorder_concat (p : DiskParams) (com : Com) (pos amount : Nat)
    (into : List Nat) (chunks : List (List Nat))
    (h1 : amount ≤ p.maxBlock) (h2 : amount % p.minBlock = 0)
    (h3 : pos % p.minBlock = 0) (h4 : pos / p.sectorSize < 2 ^ 32)
    (h32 : amount < 2 ^ 32) (hlen : into.length = amount)
    (hsum : (chunks.map List.length).sum = amount) :
    (readLogicalDiskAligned p com pos amount into (chunks.map some)).result = some amount
    ∧ (readLogicalDiskAligned p com pos amount into (chunks.map some)).finalTx
        = some ⟨amount, false, chunks.flatten⟩
    ∧ (∀ s : TxState, s.error = false → (txDone amount s = true ↔ s.copied = amount)) := by
  have hw := waitFor_inorder amount h32 chunks [] into (by simpa using hlen)
    (hsum.trans hlen.symm)
  simp only [List.length_nil, List.nil_append] at hw
  rw [readAligned_valid_eval p com pos amount into (chunks.map some) h1 h2 h3 h4]
  rw [hw]
  refine ⟨rfl, rfl, ?_⟩
  intro s hs
  simp [txDone, hs]

theorem readAligned_inorder_concat_witness :
    (readLogicalDiskAligned ⟨512, 8192, 512, 7⟩ ⟨[], 0, []⟩ 0 1024
        (List.replicate 1024 0)
        ([List.replicate 512 1, List.replicate 512 2].map some)).result = some 1024
    ∧ (readLogicalDiskAligned ⟨512, 8192, 512, 7⟩ ⟨[], 0, []⟩ 0 1024
        (List.replicate 1024 0)
        ([List.replicate 512 1, List.replicate 512 2].map some)).finalTx
        = some ⟨1024, false, [List.replicate 512 1, List.replicate 512 2].flatten⟩
    ∧ (∀ s : TxState, s.error = false → (txDone 1024 s = true ↔ s.copied = 1024)) :=
  readAligned_inorder_concat ⟨512, 8192, 512, 7⟩ ⟨[], 0, []⟩ 0 1024
    (List.replicate 1024 0) [List.replicate 512 1, List.replicate 512 2]
    (by norm_num) (by norm_num) (by norm_num) (by norm_num) (by norm_num)
    (by rw [List.length_replicate])
    (by simp only [List.map_cons, List.map_nil, List.length_replicate,
          List.sum_cons, List.sum_nil]; norm_num)

/-- Indices outside the copied range `[off, off + data.length)` are untouched
by `memcpyAt`, provided the buffer covers the range. -/
theorem memcpyAt_getD_outside (buf data : List Nat) (off i : Nat)
    (hoff : off + data.length ≤ buf.length)
    (hi : i < off ∨ off + data.length ≤ i) :
    (memcpyAt buf off data).getD i 0 = buf.getD i 0 := by
  unfold memcpyAt
  have hofflen : (buf.take off).length = off := by
    simp [List.length_take]
    omega
  have hAD : (buf.take off ++ data).length = off + data.length := by
    simp [hofflen]
  rcases hi with hi | hi
  · rw [List.getD_append _ _ _ _ (by rw [hAD]; omega)]
    rw [List.getD_append _ _ _ _ (by rw [hofflen]; omega)]
    rw [List.getD_eq_getElem?_getD, List.getD_eq_getElem?_getD,
      List.getElem?_take_of_lt hi]
  · rw [List.getD_append_right _ _ _ _ (by rw [hAD]; omega)]
    rw [hAD]
    rw [List.getD_eq_getElem?_getD, List.getD_eq_getElem?_getD, List.getElem?_drop]
    rw [show off + data.length + (i - (off + data.length)) = i by omega]

/-- One callback invocation never pushes the accumulated count past the
requested amount. -/
theorem callbackStep_copied_le (amount : Nat) (s : TxState) (msg : Option (List Nat))
    (hc : s.copied ≤ amount) : (callbackStep amount s msg).copied ≤ amount := by
  cases msg with
  | none => simpa [callbackStep] using hc
  | some d =>
    by_cases hlt : amount < s.copied + d.length
    · simpa [callbackStep, hlt] using hc
    · simp only [callbackStep, if_neg hlt]
      calc (s.copied + d.length) % 2 ^ 32 ≤ s.copied + d.length := Nat.mod_le _ _
        _ ≤ amount := by omega

/-- Across any message sequence, the accumulated count stays within the
requested amount. -/
theorem waitForMessages_copied_le (amount : Nat) (msgs : List (Option (List Nat))) :
    ∀ s : TxState, s.copied ≤ amount →
      ((waitForMessages amount s msgs).1).copied ≤ amount := by
  induction msgs with
  | nil => intro s hs; simpa [waitForMessages] using hs
  | cons m rest ih =>
    intro s hs
    rw [waitForMessages]
    split
    · simpa using hs
    · exact ih _ (callbackStep_copied_le amount s m hs)

/-- C9: after every callback invocation the accumulated count is at most the
requested amount; every copy the callback performs requires
`copied + chunk size ≤ amount` and changes the destination only on the index
range `[copied, copied + chunk size)`; and across an arbitrary sequence of
chunks, starting from an empty accumulation, the accumulated count never
exceeds the requested amount. -/
theorem callback_respects_request_bounds (amount : Nat) (s : TxState)
    (msg : Option (List Nat)) (hc : s.copied ≤ amount) (hl : amount ≤ s.into.length) :
    (callbackStep amount s msg).copied ≤ amount
    ∧ (∀ d, msg = some d → s.copied + d.length ≤ amount →
        (callbackStep amount s msg).into
            = s.into.take s.copied ++ d ++ s.into.drop (s.copied + d.length)
        ∧ ∀ i, (i < s.copied ∨ s.copied + d.length ≤ i) →
            (callbackStep amount s msg).into.getD i 0 = s.into.getD i 0)
    ∧ (∀ (into0 : List Nat) (msgs : List (Option (List Nat))),
        ((waitForMessages amount ⟨0, false, into0⟩ msgs).1).copied ≤ amount) := by
  refine ⟨callbackStep_copied_le amount s msg hc, ?_,
    fun into0 msgs => waitForMessages_copied_le amount msgs _ (Nat.zero_le _)⟩
  rintro d rfl hfit
  have hni : ¬ amount < s.copied + d.length := by omega
  constructor
  · simp [callbackStep, hni, memcpyAt]
  · intro i hi
    simp only [callbackStep, if_neg hni]
    exact memcpyAt_getD_outside s.into d s.copied i (by omega) hi

theorem callback_respects_request_bounds_witness :
    (callbackStep 4 ⟨1, false, [9, 9, 9, 9]⟩ (some [5, 5])).copied ≤ 4
    ∧ (∀ d, (some [5, 5] : Option (List Nat)) = some d → 1 + d.length ≤ 4 →
        (callbackStep 4 ⟨1, false, [9, 9, 9, 9]⟩ (some [5, 5])).into
            = [9, 9, 9, 9].take 1 ++ d ++ [9, 9, 9, 9].drop (1 + d.length)
        ∧ ∀ i, (i < 1 ∨ 1 + d.length ≤ i) →
            (callbackStep 4 ⟨1, false, [9, 9, 9, 9]⟩ (some [5, 5])).into.getD i 0
              = [9, 9, 9, 9].getD i 0)
    ∧ (∀ (into0 : List Nat) (msgs : List (Option (List Nat))),
        ((waitForMessages 4 ⟨0, false, into0⟩ msgs).1).copied ≤ 4) :=
  callback_respects_request_bounds 4 ⟨1, false, [9, 9, 9, 9]⟩ (some [5, 5])
    (by decide) (by decide)

/-- A decimal digit character is a digit. -/
theorem isDigit_ofNat_digit (d : Nat) (hd : d < 10) :
    (Char.ofNat (48 + d)).isDigit = true := by
  interval_cases d <;> decide

/-- Code point of a decimal digit character. -/
theorem toNat_ofNat_digit (d : Nat) (hd : d < 10) :
    (Char.ofNat (48 + d)).toNat = 48 + d := by
  interval_cases d <;> decide

/-- Every character printed by `toDecimal` is a digit. -/
theorem toDecimal_all_digits (n : Nat) : ∀ c ∈ toDecimal n, c.isDigit = true := by
  induction n using Nat.strong_induction_on with
  | _ n ih =>
    rw [toDecimal]
    split
    · rename_i h
      intro c hc
      simp only [List.mem_singleton] at hc
      subst hc
      exact isDigit_ofNat_digit n h
    · rename_i h
      intro c hc
      rw [List.mem_append] at hc
      rcases hc with hc | hc
      · exact ih (n / 10) (Nat.div_lt_self (by omega) (by norm_num)) c hc
      · simp only [List.mem_singleton] at hc
        subst hc
        exact isDigit_ofNat_digit (n % 10) (Nat.mod_lt _ (by norm_num))

/-- Lemma: `toDecimal` starts with a digit character. -/
theorem toDecimal_head_digit (n : Nat) :
    ∃ c cs, toDecimal n = c :: cs ∧ c.isDigit = true := by
  induction n using Nat.strong_induction_on with
  | _ n ih =>
    rw [toDecimal]
    split
    · rename_i h
      exact ⟨_, [], rfl, isDigit_ofNat_digit n h⟩
    · rename_i h
      obtain ⟨c, cs, hcs, hdig⟩ := ih (n / 10) (Nat.div_lt_self (by omega) (by norm_num))
      exact ⟨c, cs ++ [Char.ofNat (48 + n % 10)], by rw [hcs]; rfl, hdig⟩

/-- Parsing back the decimal digits of `n` recovers `n`. -/
theorem foldl_toDecimal (n : Nat) :
    (toDecimal n).foldl (fun a c => a * 10 + (c.toNat - 48)) 0 = n := by
  induction n using Nat.strong_induction_on with
  | _ n ih =>
    rw [toDecimal]
    split
    · rename_i h
      simp [toNat_ofNat_digit n h]
    · rename_i h
      rw [List.foldl_append, ih (n / 10) (Nat.div_lt_self (by omega) (by norm_num))]
      simp [toNat_ofNat_digit (n % 10) (Nat.mod_lt _ (by norm_num))]
      omega

/-- Lemma: `stoulDigits` round-trips with decimal printing. -/
theorem stoulDigits_toDecimal (n : Nat) : stoulDigits (toDecimal n) = n := by
  unfold stoulDigits
  rw [List.takeWhile_eq_self_iff.mpr (toDecimal_all_digits n)]
  exact foldl_toDecimal n

/-- Scanning `ttyACM<n>` for its first digit leaves exactly the digits of
`n`. -/
theorem dropWhile_ttyACM (n : Nat) :
    (ttyACMName n).dropWhile (fun c => !c.isDigit) = toDecimal n := by
  obtain ⟨c, cs, hcs, hdig⟩ := toDecimal_head_digit n
  unfold ttyACMName
  rw [List.dropWhile_append]
  have h1 : List.dropWhile (fun c => !c.isDigit) ['t', 't', 'y', 'A', 'C', 'M'] = [] := by
    decide
  rw [h1]
  simp only [List.isEmpty_nil, if_true]
  rw [hcs, List.dropWhile_cons]
  simp [hdig]

/-- C10: for a device found on a tty named `ttyACM<n>` (with the handle in the
nonnegative range of the handle type), the stored handle is `n` plus the
fixed offset 10, that handle is never 0, and `HandleToTTY` maps it back to
exactly `/dev/ttyACM<n>`. -/
theorem cdcacm_handle_roundtrip (n : Nat) (hn : n + HANDLE_OFFSET < 2 ^ 31) :
    findHandle (ttyACMName n) = some (n + HANDLE_OFFSET)
    ∧ n + HANDLE_OFFSET ≠ 0
    ∧ HandleToTTY (n + HANDLE_OFFSET) = ['/', 'd', 'e', 'v', '/'] ++ ttyACMName n := by
  have hne : (toDecimal n).isEmpty = false := by
    obtain ⟨c, cs, hcs, _⟩ := toDecimal_head_digit n
    rw [hcs]
    rfl
  refine ⟨?_, by simp [HANDLE_OFFSET], ?_⟩
  · simp [findHandle, dropWhile_ttyACM, hne, stoulDigits_toDecimal]
  · unfold HandleToTTY ttyACMName
    simp [HANDLE_OFFSET]

theorem cdcacm_handle_roundtrip_witness :
    findHandle (ttyACMName 3) = some (3 + HANDLE_OFFSET)
    ∧ 3 + HANDLE_OFFSET ≠ 0
    ∧ HandleToTTY (3 + HANDLE_OFFSET) = ['/', 'd', 'e', 'v', '/'] ++ ttyACMName 3 :=
  cdcacm_handle_roundtrip 3 (by decide)

end Icsneo
